import Mathlib

/-
Verification of the loglion log-analysis core: the sequential funnel
analyzer (`AnalyzeFunnel`, `eventMatchesStep`, `checkRequiredProperties`),
the pattern-count analyzer (`NewCountAnalyzer`, `AnalyzeCount`,
`eventMatchesPattern`), configuration validation (`validateStep`) and
file-level parsing (`ParseFile`).

The Go `regexp` package is treated as an abstract parameter: a value of
type `ReCompile` maps a pattern string either to `none` (the pattern does
not compile) or to `some m`, where `m` is the compiled matcher's
unanchored `MatchString`.  All analyzer definitions are parametric in
this engine; `litRe` below is a small concrete instance (literal
substring matching, with the lone `"("` as an example of an invalid
pattern, as in Go) used to evaluate the definitions on concrete inputs.

Go's `float64` result fields (percentages, drop-off rates) are modelled
with exact rationals `ℚ`; the arithmetic expressions are the ones the
source computes.
-/

namespace Loglion

/-! ## Dynamic JSON-like values

Go's `map[string]interface{}` holding data produced by `encoding/json`
is modelled as an association list of tagged dynamic values. -/

inductive JsonValue where
  | str (s : String)
  | num (n : Int)
  | jbool (b : Bool)
  | null
  | obj (fields : List (String × JsonValue))
  | arr (elems : List JsonValue)

/-- Go map lookup `eventData[key]` (keys of a Go map are unique, so
first-match association-list lookup is faithful). -/
def lookupKey : List (String × JsonValue) → String → Option JsonValue
  | [], _ => none
  | (k, v) :: rest, key => if k = key then some v else lookupKey rest key

/-- `v` is a JSON string (Go's `value.(string)` type assertion succeeds). -/
def JsonValue.isStr : JsonValue → Bool
  | .str _ => true
  | _ => false

/-! ## Data model (`internal/parser/parser.go`, `internal/config/config.go`) -/

structure LogEntry where
  timestamp : Option Nat
  level : String
  tag : String
  pid : Int
  tid : Int
  message : String
  eventData : Option (List (String × JsonValue))

structure Step where
  name : String
  eventPattern : String
  requiredProperties : List (String × String)
deriving DecidableEq

structure Funnel where
  name : String
  steps : List Step
deriving DecidableEq

structure Config where
  funnel : Funnel
deriving DecidableEq

structure FunnelAnalyzer where
  config : Config
deriving DecidableEq

/-- The abstract Go `regexp` engine: `re p = none` when `p` fails to
compile, otherwise `some` of the compiled unanchored matcher. -/
abbrev ReCompile := String → Option (String → Bool)

/-! ## Result records (`internal/analyzer`, unnamed funnel analyzer file) -/

structure StepResult where
  name : String
  eventCount : Nat
  percentage : ℚ
deriving DecidableEq

structure DropOff where
  fromStep : String
  toStep : String
  eventsLost : Int
  dropOffRate : ℚ
deriving DecidableEq

structure FunnelResult where
  funnelName : String
  totalEventsAnalyzed : Nat
  funnelCompleted : Bool
  steps : List StepResult
  dropOffs : List DropOff
deriving DecidableEq

/-! ## Funnel analyzer construction and matching -/

/-- `NewFunnelAnalyzer` merely stores the configuration; it performs no
pattern compilation and cannot fail. -/
def NewFunnelAnalyzer (cfg : Config) : FunnelAnalyzer :=
  { config := cfg }

/-- `checkRequiredProperties`: every required property key must exist in
the event data, hold a string value, and that string must match the
property's pattern; a pattern that fails to compile is a non-match. -/
def checkRequiredProperties (re : ReCompile)
    (eventData : List (String × JsonValue)) :
    List (String × String) → Bool
  | [] => true
  | (key, pat) :: rest =>
    match lookupKey eventData key with
    | none => false
    | some v =>
      match v with
      | .str s =>
        match re pat with
        | none => false
        | some m =>
          if m s then checkRequiredProperties re eventData rest else false
      | _ => false

/-- `eventMatchesStep` from the sequential funnel analyzer: compile the
step pattern (failure means no match); with structured data, match the
`"event"` field when present (a non-string value never matches), falling
back to the raw message, then check the required properties; without
structured data, match the raw message and accept only when the step
requires no properties. -/
def eventMatchesStep (re : ReCompile) (entry : LogEntry) (step : Step) : Bool :=
  match re step.eventPattern with
  | none => false
  | some m =>
    match entry.eventData with
    | some ed =>
      match lookupKey ed "event" with
      | some v =>
        match v with
        | .str s =>
          if m s then checkRequiredProperties re ed step.requiredProperties
          else false
        | _ => false
      | none =>
        if m entry.message then checkRequiredProperties re ed step.requiredProperties
        else false
    | none =>
      if m entry.message then step.requiredProperties.isEmpty
      else false

/-! ## Funnel scan loops -/

/-- `stepCounts[i]++` on a Go slice. -/
def bumpAt : List Nat → Nat → List Nat
  | [], _ => []
  | c :: rest, 0 => (c + 1) :: rest
  | c :: rest, n + 1 => c :: bumpAt rest n

/-- Mode 1 (`max == 0`): a single pass advancing the cursor on every
in-order match, recording a conversion and resetting whenever the cursor
reaches the last step.  State is `(currentStep, conversionsFound,
stepCounts)`. -/
def uncappedLoop (re : ReCompile) (steps : List Step) :
    List LogEntry → Nat → Nat → List Nat → Nat × Nat × List Nat
  | [], cur, conv, counts => (cur, conv, counts)
  | e :: rest, cur, conv, counts =>
    if h : cur < steps.length then
      if eventMatchesStep re e (steps.get ⟨cur, h⟩) then
        if cur + 1 ≥ steps.length then
          uncappedLoop re steps rest 0 (conv + 1) (bumpAt counts cur)
        else
          uncappedLoop re steps rest (cur + 1) conv (bumpAt counts cur)
      else uncappedLoop re steps rest cur conv counts
    else uncappedLoop re steps rest cur conv counts

/-- Mode 2 (`max > 0`): per-entry loop that first breaks once `max`
conversions are found, then (if the cursor has run past the last step)
records a conversion, resets, and possibly breaks, and finally tests the
entry against the sought step.  `steps[currentStep]` on an empty step
list is a Go panic, modelled as `none`. -/
def cappedLoop (re : ReCompile) (steps : List Step) (max : Nat) :
    List LogEntry → Nat → Nat → List Nat → Option (Nat × Nat × List Nat)
  | [], cur, conv, counts => some (cur, conv, counts)
  | e :: rest, cur, conv, counts =>
    if conv ≥ max then some (cur, conv, counts)
    else if cur ≥ steps.length then
      if conv + 1 ≥ max then some (0, conv + 1, counts)
      else
        match steps.get? 0 with
        | none => none
        | some step =>
          if eventMatchesStep re e step then
            cappedLoop re steps max rest 1 (conv + 1) (bumpAt counts 0)
          else
            cappedLoop re steps max rest 0 (conv + 1) counts
    else
      match steps.get? cur with
      | none => none
      | some step =>
        if eventMatchesStep re e step then
          cappedLoop re steps max rest (cur + 1) conv (bumpAt counts cur)
        else
          cappedLoop re steps max rest cur conv counts

/-! ## Funnel result assembly -/

/-- `stepCounts[i]`, with the Go convention that the loops below only
ever read in-range indices. -/
def countAt (counts : List Nat) (i : Nat) : Nat :=
  (counts.get? i).getD 0

/-- `steps[i].Name`. -/
def stepNameAt (steps : List Step) (i : Nat) : String :=
  ((steps.get? i).map Step.name).getD ""

/-- `baseCount`: the first step's count when positive, else `0`. -/
def baseCount : List Nat → Nat
  | [] => 0
  | c :: _ => if 0 < c then c else 0

/-- Per-step results with percentages relative to the first step. -/
def mkStepResults (steps : List Step) (counts : List Nat) : List StepResult :=
  List.zipWith
    (fun (st : Step) (c : Nat) =>
      { name := st.name
        eventCount := c
        percentage :=
          if 0 < baseCount counts then
            (c : ℚ) / (baseCount counts : ℚ) * 100
          else 0 })
    steps counts

/-- Drop-off records for adjacent pairs whose earlier count is positive. -/
def computeDropOffs (steps : List Step) (counts : List Nat) : List DropOff :=
  (List.range (counts.length - 1)).filterMap
    (fun i =>
      if 0 < countAt counts i then
        some
          { fromStep := stepNameAt steps i
            toStep := stepNameAt steps (i + 1)
            eventsLost := (countAt counts i : Int) - (countAt counts (i + 1) : Int)
            dropOffRate :=
              (((countAt counts i : Int) - (countAt counts (i + 1) : Int) : Int) : ℚ) /
                (countAt counts i : ℚ) * 100 }
      else none)

/-- `AnalyzeFunnel`: empty input short-circuits to a zero result; mode is
selected by `max`; in capped mode a cursor standing past the last step at
end of input counts as one more conversion.  The result is `none` exactly
on the Go panic path (capped scan over an empty step list). -/
def AnalyzeFunnel (re : ReCompile) (fa : FunnelAnalyzer)
    (entries : List LogEntry) (max : Nat) : Option FunnelResult :=
  if entries.length = 0 then
    some
      { funnelName := fa.config.funnel.name
        totalEventsAnalyzed := 0
        funnelCompleted := false
        steps := []
        dropOffs := [] }
  else if max = 0 then
    let res := uncappedLoop re fa.config.funnel.steps entries 0 0
      (List.replicate fa.config.funnel.steps.length 0)
    some
      { funnelName := fa.config.funnel.name
        totalEventsAnalyzed := entries.length
        funnelCompleted := 0 < res.2.1
        steps := mkStepResults fa.config.funnel.steps res.2.2
        dropOffs := computeDropOffs fa.config.funnel.steps res.2.2 }
  else
    match cappedLoop re fa.config.funnel.steps max entries 0 0
      (List.replicate fa.config.funnel.steps.length 0) with
    | none => none
    | some (cur, conv, counts) =>
      let conv2 := if fa.config.funnel.steps.length ≤ cur then conv + 1 else conv
      some
        { funnelName := fa.config.funnel.name
          totalEventsAnalyzed := entries.length
          funnelCompleted := 0 < conv2
          steps := mkStepResults fa.config.funnel.steps counts
          dropOffs := computeDropOffs fa.config.funnel.steps counts }

/-! ## Count analyzer (`internal/analyzer/funnel.go`, count section) -/

structure EventPattern where
  name : String
  pattern : String
  regexMatch : String → Bool

structure CountAnalyzer where
  patterns : List EventPattern

structure PatternCount where
  pattern : String
  count : Nat
deriving DecidableEq

structure CountResult where
  totalEventsAnalyzed : Nat
  patternCounts : List PatternCount
deriving DecidableEq

/-- The construction loop of `NewCountAnalyzer`: compile each pattern in
order, failing on the first pattern that does not compile. -/
def compilePatterns (re : ReCompile) : List String → Option (List EventPattern)
  | [] => some []
  | p :: rest =>
    match re p with
    | none => none
    | some m =>
      match compilePatterns re rest with
      | none => none
      | some ps => some ({ name := p, pattern := p, regexMatch := m } :: ps)

/-- `NewCountAnalyzer`: any pattern that fails to compile fails
construction entirely; no analyzer value is produced. -/
def NewCountAnalyzer (re : ReCompile) (eventPatterns : List String) :
    Option CountAnalyzer :=
  (compilePatterns re eventPatterns).map (fun ps => { patterns := ps })

/-- `eventMatchesPattern`: the count analyzer's structured/unstructured
fallback, without required-properties checking. -/
def eventMatchesPattern (entry : LogEntry) (ep : EventPattern) : Bool :=
  match entry.eventData with
  | some ed =>
    match lookupKey ed "event" with
    | some v =>
      match v with
      | .str s => ep.regexMatch s
      | _ => false
    | none => ep.regexMatch entry.message
  | none => ep.regexMatch entry.message

/-- The inner per-entry loop of `AnalyzeCount`: bump the running count of
every pattern the entry matches. -/
def countsAfterEntry (e : LogEntry) (pats : List EventPattern)
    (counts : List Nat) : List Nat :=
  List.zipWith (fun ep c => if eventMatchesPattern e ep then c + 1 else c)
    pats counts

/-- The outer loop of `AnalyzeCount` over entries. -/
def countLoop (pats : List EventPattern) :
    List LogEntry → List Nat → List Nat
  | [], counts => counts
  | e :: rest, counts => countLoop pats rest (countsAfterEntry e pats counts)

/-- `AnalyzeCount`: empty input short-circuits to an empty result;
otherwise one `PatternCount` per pattern, in pattern order. -/
def AnalyzeCount (ca : CountAnalyzer) (entries : List LogEntry) : CountResult :=
  if entries.length = 0 then
    { totalEventsAnalyzed := 0, patternCounts := [] }
  else
    { totalEventsAnalyzed := entries.length
      patternCounts :=
        List.zipWith (fun (ep : EventPattern) (c : Nat) =>
            { pattern := ep.name, count := c })
          ca.patterns
          (countLoop ca.patterns entries (List.replicate ca.patterns.length 0)) }

/-! ## Funnel configuration validation
(`internal/config/config.go`, `FunnelConfig.validateStep`) -/

/-- `validateStep`: a step fails validation when its name is empty or a
duplicate, its event pattern is empty or fails to compile, or a required
property has an empty name, an empty pattern, or a pattern that fails to
compile. -/
def validateStep (re : ReCompile) (step : Step) (stepNames : List String) :
    Except String Unit :=
  if step.name = "" then .error "name is required"
  else if stepNames.contains step.name then .error "duplicate step name"
  else if step.eventPattern = "" then .error "event_pattern is required"
  else
    match re step.eventPattern with
    | none => .error "invalid event_pattern regex"
    | some _ => validateProps re step.requiredProperties
where
  validateProps (re : ReCompile) : List (String × String) → Except String Unit
    | [] => .ok ()
    | (propName, propPattern) :: rest =>
      if propName = "" then .error "property name cannot be empty"
      else if propPattern = "" then .error "property pattern cannot be empty"
      else
        match re propPattern with
        | none => .error "invalid regex pattern for property"
        | some _ => validateProps re rest

/-! ## File-level parsing (`internal/parser/android.go`, `ParseFile`)

The operating system's file access is abstracted: a `FileInput` is
either a failure to open, or the file's lines together with a flag
telling whether the line scanner reports a read error at the end.  The
single-line parser is the abstract parameter `p` (`none` = the line
fails to parse). -/

inductive FileInput where
  | openError
  | content (lines : List String) (readError : Bool)

/-- Go `unicode.IsSpace` restricted to the ASCII whitespace that can
occur in a text line. -/
def isSpaceChar (c : Char) : Bool :=
  c = ' ' || c = '\t' || c = '\n' || c = '\r' || c = '\x0b' || c = '\x0c'

/-- Drop leading whitespace characters. -/
def dropSpaces : List Char → List Char
  | [] => []
  | c :: rest => if isSpaceChar c then dropSpaces rest else c :: rest

/-- Go `strings.TrimSpace` on the character list of a line. -/
def trimSpace (l : List Char) : List Char :=
  ((dropSpaces ((dropSpaces l).reverse)).reverse)

/-- The line is blank after trimming (skipped by `ParseFile`). -/
def isBlankLine (line : String) : Bool :=
  (trimSpace line.data).isEmpty

/-- The accumulation loop of `ParseFile`: skip blank lines, skip lines
whose parse fails, append parsed entries in order. -/
def parseFileLoop (p : String → Option LogEntry) :
    List String → List LogEntry → List LogEntry
  | [], acc => acc
  | line :: rest, acc =>
    if isBlankLine line then parseFileLoop p rest acc
    else
      match p line with
      | none => parseFileLoop p rest acc
      | some e => parseFileLoop p rest (acc ++ [e])

/-- `ParseFile`: failure to open the file and a scanner read error are
both fatal; otherwise the accumulated entries are returned. -/
def ParseFile (p : String → Option LogEntry) :
    FileInput → Except String (List LogEntry)
  | .openError => .error "failed to open file"
  | .content lines readError =>
    let entries := parseFileLoop p lines []
    if readError then .error "error reading file" else .ok entries

/-! ## Single-line plain parsing (`PlainParser.Parse`)

The compiled `logLineRegex` is abstracted as `logLineCaps`, returning
Go's `FindStringSubmatch` array on a match (the whole match at index 0,
capture groups from index 1; `none` when the line does not match), and
the Go standard library's `time.Parse` as the parameter `timeParse`
(format, text; `none` on a parse error).  `extractEventData` — which
only ever sets the entry's `EventData`, from the raw line or the
message — is abstracted as the parameter `extractData`. -/

/-- Digits-only decimal reading, modelling `strconv.Atoi` on the pid/tid
capture groups (which the line patterns capture as digit runs). -/
def digitsToNat : List Char → Option Nat
  | [] => none
  | l => go l 0
where
  go : List Char → Nat → Option Nat
    | [], acc => some acc
    | c :: rest, acc =>
      if c.isDigit then go rest (acc * 10 + (c.toNat - 48)) else none

/-- `matches[i]` of the submatch array, `""` when absent. -/
def groupAt (gs : List String) (i : Nat) : String :=
  (gs.get? i).getD ""

structure PlainParser where
  timestampFormat : String
  logLineCaps : String → Option (List String)
  jsonExtraction : Bool

/-- The entry defaults plus the timestamp block: a non-empty timestamp
group with a configured format is parsed; on success the timestamp is
set, on failure the captured timestamp text is written to the message
and the timestamp stays unset. -/
def tsBlock (timeParse : String → String → Option Nat) (p : PlainParser)
    (ms : List String) : LogEntry :=
  let entry : LogEntry :=
    { timestamp := none, level := "", tag := "", pid := 0, tid := 0,
      message := "", eventData := none }
  if 1 < ms.length ∧ ¬ groupAt ms 1 = "" ∧
      ¬ p.timestampFormat = "" then
    match timeParse p.timestampFormat (groupAt ms 1) with
    | some ts => { entry with timestamp := some ts }
    | none => { entry with message := groupAt ms 1 }
  else entry

/-- The pid block: parse failure is non-fatal (field stays 0). -/
def pidBlock (ms : List String) (entry : LogEntry) : LogEntry :=
  if 2 < ms.length ∧ ¬ groupAt ms 2 = "" then
    match digitsToNat (groupAt ms 2).data with
    | some pid => { entry with pid := (pid : Int) }
    | none => entry
  else entry

/-- The tid block: parse failure is non-fatal (field stays 0). -/
def tidBlock (ms : List String) (entry : LogEntry) : LogEntry :=
  if 3 < ms.length ∧ ¬ groupAt ms 3 = "" then
    match digitsToNat (groupAt ms 3).data with
    | some tid => { entry with tid := (tid : Int) }
    | none => entry
  else entry

def levelBlock (ms : List String) (entry : LogEntry) : LogEntry :=
  if 4 < ms.length ∧ ¬ groupAt ms 4 = "" then
    { entry with level := groupAt ms 4 }
  else entry

def tagBlock (ms : List String) (entry : LogEntry) : LogEntry :=
  if 5 < ms.length ∧ ¬ groupAt ms 5 = "" then
    { entry with tag := groupAt ms 5 }
  else entry

/-- The message block: a non-empty message group (index 6) overwrites
the message; otherwise a still-empty message falls back to the last
captured group. -/
def msgBlock (ms : List String) (entry : LogEntry) : LogEntry :=
  if 6 < ms.length ∧ ¬ groupAt ms 6 = "" then
    { entry with message := groupAt ms 6 }
  else if 1 < ms.length ∧ entry.message = "" then
    { entry with message := groupAt ms (ms.length - 1) }
  else entry

/-- The JSON-extraction block: only ever fills `eventData`. -/
def jsonBlock
    (extractData : String → String → Option (List (String × JsonValue)))
    (p : PlainParser) (logLine : String) (entry : LogEntry) : LogEntry :=
  if p.jsonExtraction then
    { entry with eventData := extractData logLine entry.message }
  else entry

/-- `PlainParser.Parse`: reject lines empty after trimming and lines the
line pattern does not match; otherwise run the field blocks in source
order over the zero-valued entry. -/
def PlainParser.Parse (timeParse : String → String → Option Nat)
    (extractData : String → String → Option (List (String × JsonValue)))
    (p : PlainParser) (logLine : String) : Except String LogEntry :=
  let trimmedLine := String.mk (trimSpace logLine.data)
  if trimmedLine = "" then .error "empty log line"
  else
    match p.logLineCaps trimmedLine with
    | none => .error "invalid log line format"
    | some ms =>
      .ok (jsonBlock extractData p logLine
        (msgBlock ms
          (tagBlock ms
            (levelBlock ms
              (tidBlock ms
                (pidBlock ms
                  (tsBlock timeParse p ms)))))))

/-! ## A concrete regexp instance for evaluating the definitions

Literal substring containment, with the lone `"("` as a pattern that
fails to compile (as it does in Go's `regexp`). -/

/-- `p` is a prefix of `s` (on character lists). -/
def charsStartWith : List Char → List Char → Bool
  | _, [] => true
  | [], _ :: _ => false
  | c :: s, d :: p => c = d && charsStartWith s p

/-- `p` occurs as a contiguous substring of `s`. -/
def charsContain : List Char → List Char → Bool
  | [], p => p.isEmpty
  | c :: rest, p => charsStartWith (c :: rest) p || charsContain rest p

/-- The concrete engine: every pattern except `"("` compiles, to the
literal substring matcher. -/
def litRe : ReCompile := fun p =>
  if p = "(" then none else some (fun s => charsContain s.data p.data)

/-- An `Except` value is an error (used to state validation failure). -/
def exceptIsErr : Except String Unit → Bool
  | .error _ => true
  | .ok _ => false

/-! ## Concrete sample values used to evaluate the definitions -/

/-- An entry with only a raw message (the spec's scenario entries). -/
def mkMsgEntry (msg : String) : LogEntry :=
  { timestamp := none, level := "", tag := "", pid := 0, tid := 0,
    message := msg, eventData := none }

def stepsEx : List Step :=
  [{ name := "S1", eventPattern := "event1", requiredProperties := [] },
   { name := "S2", eventPattern := "event2", requiredProperties := [] }]

def cfgEx : Config := { funnel := { name := "checkout", steps := stepsEx } }

def entries4 : List LogEntry :=
  [mkMsgEntry "event1", mkMsgEntry "event2",
   mkMsgEntry "event1", mkMsgEntry "event2"]

/-! ## Basic lemmas about the counter primitives -/

theorem bumpAt_length : ∀ (counts : List Nat) (i : Nat),
    (bumpAt counts i).length = counts.length
  | [], _ => rfl
  | _ :: rest, 0 => rfl
  | c :: rest, n + 1 => by simp [bumpAt, bumpAt_length rest n]

theorem countAt_nil (i : Nat) : countAt [] i = 0 := by
  cases i <;> rfl

theorem countAt_cons_zero (c : Nat) (rest : List Nat) :
    countAt (c :: rest) 0 = c := rfl

theorem countAt_cons_succ (c : Nat) (rest : List Nat) (i : Nat) :
    countAt (c :: rest) (i + 1) = countAt rest i := rfl

theorem countAt_of_le (counts : List Nat) (i : Nat)
    (h : counts.length ≤ i) : countAt counts i = 0 := by
  unfold countAt
  rw [List.get?_eq_none.mpr h]
  rfl

theorem countAt_replicate : ∀ (n i : Nat), countAt (List.replicate n 0) i = 0
  | 0, i => countAt_nil i
  | n + 1, 0 => rfl
  | n + 1, i + 1 => countAt_replicate n i

theorem countAt_bumpAt : ∀ (counts : List Nat) (i j : Nat),
    i < counts.length →
    countAt (bumpAt counts i) j = countAt counts j + (if j = i then 1 else 0)
  | [], i, _, h => by simp at h
  | c :: rest, 0, 0, _ => by simp [bumpAt, countAt_cons_zero]
  | c :: rest, 0, j + 1, _ => by simp [bumpAt, countAt_cons_succ]
  | c :: rest, i + 1, 0, _ => by simp [bumpAt, countAt_cons_zero]
  | c :: rest, i + 1, j + 1, h => by
    have hi : i < rest.length := by simpa using h
    simp only [bumpAt, countAt_cons_succ, countAt_bumpAt rest i j hi,
      Nat.succ.injEq]

/-! ## The scan invariant: step counts trace the cursor

At every point of either scan, some number `R` of full traversals has
been recorded, and step `i`'s count is `R`, plus one when the cursor has
already moved past step `i` in the current traversal. -/

structure CountsInv (steps : List Step) (cur : Nat) (counts : List Nat) : Prop where
  len_eq : counts.length = steps.length
  cur_le : cur ≤ steps.length
  formula : ∃ R, ∀ i, i < counts.length →
    countAt counts i = R + (if i < cur then 1 else 0)

theorem countsInv_init (steps : List Step) :
    CountsInv steps 0 (List.replicate steps.length 0) := by
  refine ⟨List.length_replicate _ _, Nat.zero_le _, 0, fun i _ => ?_⟩
  simp [countAt_replicate]

theorem countsInv_bump {steps : List Step} {cur : Nat} {counts : List Nat}
    (h : CountsInv steps cur counts) (hlt : cur < steps.length) :
    CountsInv steps (cur + 1) (bumpAt counts cur) := by
  obtain ⟨R, hR⟩ := h.formula
  refine ⟨(bumpAt_length counts cur).trans h.len_eq, hlt, R, fun i hi => ?_⟩
  rw [bumpAt_length] at hi
  rw [countAt_bumpAt counts cur i (h.len_eq ▸ hlt), hR i hi]
  rcases Nat.lt_trichotomy i cur with hc | hc | hc
  · have h1 : i < cur + 1 := Nat.lt_succ_of_lt hc
    have h2 : i ≠ cur := Nat.ne_of_lt hc
    simp [hc, h1, h2]
  · subst hc
    simp
  · have h1 : ¬ i < cur := Nat.not_lt_of_gt hc
    have h2 : ¬ i < cur + 1 := Nat.not_lt.mpr hc
    have h3 : i ≠ cur := (Nat.ne_of_lt hc).symm
    simp [h1, h2, h3]

theorem countsInv_reset {steps : List Step} {counts : List Nat}
    (h : CountsInv steps steps.length counts) :
    CountsInv steps 0 counts := by
  obtain ⟨R, hR⟩ := h.formula
  refine ⟨h.len_eq, Nat.zero_le _, R + 1, fun i hi => ?_⟩
  have : i < steps.length := h.len_eq ▸ hi
  rw [hR i hi]
  simp [this]

theorem countsInv_mono {steps : List Step} {cur : Nat} {counts : List Nat}
    (h : CountsInv steps cur counts) (i : Nat) :
    countAt counts (i + 1) ≤ countAt counts i := by
  obtain ⟨R, hR⟩ := h.formula
  by_cases hi : i + 1 < counts.length
  · have hi0 : i < counts.length := Nat.lt_of_succ_lt hi
    rw [hR i hi0, hR (i + 1) hi]
    split_ifs <;> omega
  · rw [countAt_of_le counts (i + 1) (Nat.not_lt.mp hi)]
    exact Nat.zero_le _

/-! ## The loops preserve the invariant -/

theorem uncappedLoop_inv (re : ReCompile) (steps : List Step) :
    ∀ (entries : List LogEntry) (cur conv : Nat) (counts : List Nat),
      CountsInv steps cur counts →
      CountsInv steps (uncappedLoop re steps entries cur conv counts).1
        (uncappedLoop re steps entries cur conv counts).2.2
  | [], cur, conv, counts, h => h
  | e :: rest, cur, conv, counts, h => by
    rw [uncappedLoop]
    split
    · next hlt =>
      split
      · split
        · next hgt =>
          have hcur : cur + 1 = steps.length := Nat.le_antisymm hlt hgt
          exact uncappedLoop_inv re steps rest 0 (conv + 1) (bumpAt counts cur)
            (countsInv_reset (hcur ▸ countsInv_bump h hlt))
        · exact uncappedLoop_inv re steps rest (cur + 1) conv (bumpAt counts cur)
            (countsInv_bump h hlt)
      · exact uncappedLoop_inv re steps rest cur conv counts h
    · exact uncappedLoop_inv re steps rest cur conv counts h

theorem cappedLoop_inv (re : ReCompile) (steps : List Step) (max : Nat) :
    ∀ (entries : List LogEntry) (cur conv : Nat) (counts : List Nat)
      (out : Nat × Nat × List Nat),
      CountsInv steps cur counts →
      cappedLoop re steps max entries cur conv counts = some out →
      CountsInv steps out.1 out.2.2
  | [], cur, conv, counts, out, h, heq => by
    rw [cappedLoop] at heq
    cases heq
    exact h
  | e :: rest, cur, conv, counts, out, h, heq => by
    rw [cappedLoop] at heq
    split at heq
    · cases heq; exact h
    · split at heq
      · next hge =>
        split at heq
        · cases heq
          have hcur : cur = steps.length := Nat.le_antisymm h.cur_le hge
          exact countsInv_reset (hcur ▸ h)
        · next hge _ =>
          have hcur : cur = steps.length := Nat.le_antisymm h.cur_le hge
          have h0 : CountsInv steps 0 counts := countsInv_reset (hcur ▸ h)
          split at heq
          · exact absurd heq (by simp)
          · next step hstep =>
            have hpos : 0 < steps.length := by
              rcases steps with _ | ⟨s, ss⟩
              · simp at hstep
              · simp
            split at heq
            · exact cappedLoop_inv re steps max rest 1 (conv + 1)
                (bumpAt counts 0) out (countsInv_bump h0 hpos) heq
            · exact cappedLoop_inv re steps max rest 0 (conv + 1) counts out h0 heq
      · next hge =>
        have hlt : cur < steps.length := Nat.lt_of_not_le hge
        split at heq
        · exact absurd heq (by simp)
        · split at heq
          · exact cappedLoop_inv re steps max rest (cur + 1) conv
              (bumpAt counts cur) out (countsInv_bump h hlt) heq
          · exact cappedLoop_inv re steps max rest cur conv counts out h heq

/-! ## Capped-scan totality on a non-empty step list -/

theorem cappedLoop_isSome (re : ReCompile) (steps : List Step) (max : Nat)
    (hs : steps ≠ []) :
    ∀ (entries : List LogEntry) (cur conv : Nat) (counts : List Nat),
      (cappedLoop re steps max entries cur conv counts).isSome = true
  | [], cur, conv, counts => by rw [cappedLoop]; rfl
  | e :: rest, cur, conv, counts => by
    rw [cappedLoop]
    split
    · rfl
    · split
      · split
        · rfl
        · rcases steps with _ | ⟨s, ss⟩
          · exact absurd rfl hs
          · dsimp only [List.get?]
            by_cases hm : eventMatchesStep re e s = true
            · rw [if_pos hm]
              exact cappedLoop_isSome re (s :: ss) max hs rest 1 (conv + 1) (bumpAt counts 0)
            · rw [if_neg hm]
              exact cappedLoop_isSome re (s :: ss) max hs rest 0 (conv + 1) counts
      · next hge =>
        have hlt : cur < steps.length := Nat.lt_of_not_le hge
        rw [List.get?_eq_get hlt]
        dsimp only
        by_cases hm : eventMatchesStep re e (steps.get ⟨cur, hlt⟩) = true
        · rw [if_pos hm]
          exact cappedLoop_isSome re steps max hs rest (cur + 1) conv (bumpAt counts cur)
        · rw [if_neg hm]
          exact cappedLoop_isSome re steps max hs rest cur conv counts

/-! ## Reading the assembled result -/

/-- `r.steps[i].eventCount`, `0` out of range. -/
def resultCountAt (r : FunnelResult) (i : Nat) : Nat :=
  ((r.steps.get? i).map StepResult.eventCount).getD 0

/-- `r.steps[i].name`, `""` out of range. -/
def resultNameAt (r : FunnelResult) (i : Nat) : String :=
  ((r.steps.get? i).map StepResult.name).getD ""

theorem zipWith_mk_get?_eventCount (f : Nat → ℚ) :
    ∀ (steps : List Step) (counts : List Nat) (i : Nat),
      ((List.zipWith
        (fun (st : Step) (c : Nat) =>
          StepResult.mk st.name c (f c)) steps counts).get? i).map
            StepResult.eventCount =
        (if i < steps.length then counts.get? i else none)
  | [], counts, i => by simp
  | s :: ss, [], i => by simp
  | s :: ss, c :: cs, 0 => by simp
  | s :: ss, c :: cs, i + 1 => by
    simpa using zipWith_mk_get?_eventCount f ss cs i

theorem zipWith_mk_get?_name (f : Nat → ℚ) :
    ∀ (steps : List Step) (counts : List Nat) (i : Nat),
      counts.length = steps.length →
      ((List.zipWith
        (fun (st : Step) (c : Nat) =>
          StepResult.mk st.name c (f c)) steps counts).get? i).map
            StepResult.name =
        (steps.get? i).map Step.name
  | [], counts, i, h => by
    have : counts = [] := List.length_eq_zero.mp h
    subst this
    simp
  | s :: ss, [], i, h => by simp at h
  | s :: ss, c :: cs, 0, h => rfl
  | s :: ss, c :: cs, i + 1, h => by
    have h' : cs.length = ss.length := by simpa using h
    simpa using zipWith_mk_get?_name f ss cs i h'

theorem mkStepResults_get?_eventCount (steps : List Step) (counts : List Nat)
    (i : Nat) (h : counts.length = steps.length) :
    ((mkStepResults steps counts).get? i).map StepResult.eventCount =
      counts.get? i := by
  by_cases hi : i < steps.length
  · simpa [mkStepResults, hi] using
      zipWith_mk_get?_eventCount
        (fun c =>
          if 0 < baseCount counts then (c : ℚ) / (baseCount counts : ℚ) * 100
          else 0) steps counts i
  · have h1 : counts.get? i = none :=
      List.get?_eq_none.mpr (h.le.trans (Nat.not_lt.mp hi))
    rw [h1]
    simpa [mkStepResults, hi] using
      zipWith_mk_get?_eventCount
        (fun c =>
          if 0 < baseCount counts then (c : ℚ) / (baseCount counts : ℚ) * 100
          else 0) steps counts i

theorem mkStepResults_get?_name (steps : List Step) (counts : List Nat)
    (i : Nat) (h : counts.length = steps.length) :
    ((mkStepResults steps counts).get? i).map StepResult.name =
      (steps.get? i).map Step.name :=
  zipWith_mk_get?_name
    (fun c =>
      if 0 < baseCount counts then (c : ℚ) / (baseCount counts : ℚ) * 100
      else 0) steps counts i h

theorem mkStepResults_length (steps : List Step) (counts : List Nat)
    (h : counts.length = steps.length) :
    (mkStepResults steps counts).length = counts.length := by
  simp [mkStepResults, h]

/-- Every `some` result of `AnalyzeFunnel` over a non-empty entry list is
assembled, via `mkStepResults` and `computeDropOffs`, from a final step
count list of the right length whose counts are non-increasing. -/
theorem analyzeFunnel_shape (re : ReCompile) (fa : FunnelAnalyzer)
    (entries : List LogEntry) (max : Nat) (r : FunnelResult)
    (hne : ¬ entries.length = 0)
    (h : AnalyzeFunnel re fa entries max = some r) :
    ∃ counts : List Nat,
      counts.length = fa.config.funnel.steps.length ∧
      (∀ i, countAt counts (i + 1) ≤ countAt counts i) ∧
      r.totalEventsAnalyzed = entries.length ∧
      r.steps = mkStepResults fa.config.funnel.steps counts ∧
      r.dropOffs = computeDropOffs fa.config.funnel.steps counts := by
  unfold AnalyzeFunnel at h
  rw [if_neg hne] at h
  by_cases hmax : max = 0
  · rw [if_pos hmax] at h
    have hinv := uncappedLoop_inv re fa.config.funnel.steps entries 0 0
      (List.replicate fa.config.funnel.steps.length 0)
      (countsInv_init fa.config.funnel.steps)
    cases h
    exact ⟨_, hinv.len_eq, countsInv_mono hinv, rfl, rfl, rfl⟩
  · rw [if_neg hmax] at h
    rcases hcl : cappedLoop re fa.config.funnel.steps max entries 0 0
        (List.replicate fa.config.funnel.steps.length 0) with _ | ⟨cur, conv, counts⟩
    · rw [hcl] at h
      cases h
    · rw [hcl] at h
      have hinv := cappedLoop_inv re fa.config.funnel.steps max entries 0 0
        (List.replicate fa.config.funnel.steps.length 0) (cur, conv, counts)
        (countsInv_init fa.config.funnel.steps) hcl
      cases h
      exact ⟨counts, hinv.len_eq, countsInv_mono hinv, rfl, rfl, rfl⟩

/-! ## Claim C1 -/

/-- C1: for every funnel configuration (the data model requires at least
one step), every entry list and every limit (0 or positive), the
`FunnelResult.totalEventsAnalyzed` field equals the length of the input
entry list — also when capped-mode scanning stopped early — and likewise
`CountResult.totalEventsAnalyzed` equals the length of the input entry
list for every count analyzer. -/
theorem totalEventsAnalyzed_eq_input_length :
    (∀ (re : ReCompile) (cfg : Config) (entries : List LogEntry) (max : Nat),
      cfg.funnel.steps ≠ [] →
      (AnalyzeFunnel re (NewFunnelAnalyzer cfg) entries max).map
        FunnelResult.totalEventsAnalyzed = some entries.length) ∧
    (∀ (ca : CountAnalyzer) (entries : List LogEntry),
      (AnalyzeCount ca entries).totalEventsAnalyzed = entries.length) := by
  constructor
  · intro re cfg entries max hsteps
    by_cases hne : entries.length = 0
    · unfold AnalyzeFunnel
      rw [if_pos hne, hne]
      rfl
    · by_cases hmax : max = 0
      · unfold AnalyzeFunnel
        rw [if_neg hne, if_pos hmax]
        rfl
      · have hs := cappedLoop_isSome re cfg.funnel.steps max hsteps entries 0 0
          (List.replicate cfg.funnel.steps.length 0)
        obtain ⟨out, hout⟩ := Option.isSome_iff_exists.mp hs
        rcases out with ⟨cur, conv, counts⟩
        unfold AnalyzeFunnel
        rw [if_neg hne, if_neg hmax]
        rw [show (NewFunnelAnalyzer cfg).config = cfg from rfl] at *
        rw [hout]
        rfl
  · intro ca entries
    unfold AnalyzeCount
    split_ifs with h
    · simp [h]
    · rfl

def caEx : CountAnalyzer := (NewCountAnalyzer litRe ["login"]).get (by decide)

/-- C1 witness. -/
theorem totalEventsAnalyzed_eq_input_length_witness :
    cfgEx.funnel.steps ≠ [] ∧
    (AnalyzeFunnel litRe (NewFunnelAnalyzer cfgEx) entries4 1).map
      FunnelResult.totalEventsAnalyzed = some 4 ∧
    (AnalyzeCount caEx
      [mkMsgEntry "user login successful", mkMsgEntry "other event"]).totalEventsAnalyzed = 2 :=
  ⟨by decide,
   totalEventsAnalyzed_eq_input_length.1 litRe cfgEx entries4 1 (by decide),
   totalEventsAnalyzed_eq_input_length.2 caEx
     [mkMsgEntry "user login successful", mkMsgEntry "other event"]⟩

/-! ## Claim C3 -/

/-- C3: for an entry without structured data, and a step whose event
pattern compiles to the matcher `m`, the step-match predicate returns
true iff the pattern matches the entry's message and the step's
required-properties map is empty; any non-empty requirement set fails
the match regardless of the message. -/
theorem unstructured_match_requires_no_properties
    (re : ReCompile) (entry : LogEntry) (step : Step) (m : String → Bool)
    (h1 : entry.eventData = none) (h2 : re step.eventPattern = some m) :
    eventMatchesStep re entry step =
      (m entry.message && step.requiredProperties.isEmpty) := by
  unfold eventMatchesStep
  rw [h2, h1]
  cases hm : m entry.message <;> simp [hm]

def entryC3 : LogEntry := mkMsgEntry "hello event1 world"

def stepC3 : Step :=
  { name := "S1", eventPattern := "event1", requiredProperties := [] }

def mC3 : String → Bool := fun s => charsContain s.data "event1".data

/-- C3 witness. -/
theorem unstructured_match_requires_no_properties_witness :
    entryC3.eventData = none ∧ litRe "event1" = some mC3 ∧
    eventMatchesStep litRe entryC3 stepC3 =
      (mC3 entryC3.message && stepC3.requiredProperties.isEmpty) :=
  ⟨rfl, rfl,
   unstructured_match_requires_no_properties litRe entryC3 stepC3 mC3 rfl rfl⟩

/-! ## Claim C8 -/

/-- C8: for an entry whose structured data contains an `"event"` key,
a non-string value makes the step-match predicate false for every step
(required properties are never consulted), and a string value `s` makes
the predicate equal to the pattern matching `s` and the required
properties being satisfied — so such a step matches only if its pattern
contains-matches `s`. -/
theorem structured_event_field_matching
    (re : ReCompile) (entry : LogEntry) (step : Step)
    (ed : List (String × JsonValue)) (h : entry.eventData = some ed) :
    (∀ v, lookupKey ed "event" = some v → v.isStr = false →
      eventMatchesStep re entry step = false) ∧
    (∀ (s : String) (m : String → Bool),
      lookupKey ed "event" = some (.str s) → re step.eventPattern = some m →
      eventMatchesStep re entry step =
        (m s && checkRequiredProperties re ed step.requiredProperties)) := by
  constructor
  · intro v hv hstr
    unfold eventMatchesStep
    rcases hre : re step.eventPattern with _ | m
    · rfl
    · dsimp only
      rw [h]
      dsimp only
      rw [hv]
      cases v with
      | str s => simp [JsonValue.isStr] at hstr
      | num n => rfl
      | jbool b => rfl
      | null => rfl
      | obj fields => rfl
      | arr elems => rfl
  · intro s m hv hre
    unfold eventMatchesStep
    rw [hre]
    dsimp only
    rw [h]
    dsimp only
    rw [hv]
    cases hm : m s <;> simp [hm]

def edC8a : List (String × JsonValue) := [("event", .num 3)]

def entryC8a : LogEntry :=
  { mkMsgEntry "raw" with eventData := some edC8a }

def edC8b : List (String × JsonValue) :=
  [("event", .str "user_login"), ("plan", .str "pro")]

def entryC8b : LogEntry :=
  { mkMsgEntry "raw" with eventData := some edC8b }

def stepC8 : Step :=
  { name := "L", eventPattern := "login", requiredProperties := [("plan", "pro")] }

def mC8 : String → Bool := fun s => charsContain s.data "login".data

/-- C8 witness. -/
theorem structured_event_field_matching_witness :
    eventMatchesStep litRe entryC8a stepC8 = false ∧
    eventMatchesStep litRe entryC8b stepC8 =
      (mC8 "user_login" && checkRequiredProperties litRe edC8b
        stepC8.requiredProperties) :=
  ⟨(structured_event_field_matching litRe entryC8a stepC8 edC8a rfl).1
      (.num 3) rfl rfl,
   (structured_event_field_matching litRe entryC8b stepC8 edC8b rfl).2
      "user_login" mC8 rfl rfl⟩

/-! ## Claim C9 -/

theorem parseFileLoop_eq_filterMap (p : String → Option LogEntry) :
    ∀ (lines : List String) (acc : List LogEntry),
      parseFileLoop p lines acc =
        acc ++ lines.filterMap (fun l => if isBlankLine l then none else p l)
  | [], acc => by simp [parseFileLoop]
  | line :: rest, acc => by
    unfold parseFileLoop
    by_cases hb : isBlankLine line = true
    · rw [if_pos hb]
      simp [hb, parseFileLoop_eq_filterMap p rest acc]
    · rw [if_neg hb]
      rcases hp : p line with _ | e
      · simp [hb, hp, parseFileLoop_eq_filterMap p rest acc]
      · simp [hb, hp, parseFileLoop_eq_filterMap p rest (acc ++ [e])]

/-- C9: file-level parsing returns exactly the successfully parsed
entries in input order — blank lines and lines whose single-line parse
fails are skipped without aborting (an empty result is valid) — while a
failure to open the file or a read error makes the whole `ParseFile`
call return an error. -/
theorem parseFile_skips_bad_lines_propagates_io :
    (∀ p, ParseFile p .openError = .error "failed to open file") ∧
    (∀ p lines, ParseFile p (.content lines true) = .error "error reading file") ∧
    (∀ p lines, ParseFile p (.content lines false) =
      .ok (lines.filterMap (fun l => if isBlankLine l then none else p l))) := by
  refine ⟨fun p => rfl, fun p lines => rfl, fun p lines => ?_⟩
  simp [ParseFile, parseFileLoop_eq_filterMap p lines []]

/-! ## Claim C2 -/

/-- C2: in capped mode the scan stops at the top of the per-entry loop
as soon as the recorded conversions reach the limit (the remaining
entries leave the state untouched); a cursor standing past the last step
at end of input counts as one more conversion, making the funnel
completed; and on steps `[S1: event1, S2: event2]`, entries
`[event1, event2, event1, event2]` with limit 1 the result has step
counts `[1, 1]`, `funnelCompleted = true` and `totalEventsAnalyzed = 4`. -/
theorem capped_mode_stops_at_limit :
    (∀ (re : ReCompile) (steps : List Step) (max : Nat)
        (entries : List LogEntry) (cur conv : Nat) (counts : List Nat),
      max ≤ conv →
      cappedLoop re steps max entries cur conv counts = some (cur, conv, counts)) ∧
    (∀ (re : ReCompile) (cfg : Config) (entries : List LogEntry) (max : Nat)
        (cur conv : Nat) (counts : List Nat),
      ¬ entries.length = 0 → ¬ max = 0 →
      cappedLoop re cfg.funnel.steps max entries 0 0
        (List.replicate cfg.funnel.steps.length 0) = some (cur, conv, counts) →
      cfg.funnel.steps.length ≤ cur →
      (AnalyzeFunnel re (NewFunnelAnalyzer cfg) entries max).map
        FunnelResult.funnelCompleted = some true) ∧
    ((AnalyzeFunnel litRe (NewFunnelAnalyzer cfgEx) entries4 1).map
      (fun r => (r.steps.map StepResult.eventCount, r.funnelCompleted,
        r.totalEventsAnalyzed)) = some ([1, 1], true, 4)) := by
  refine ⟨?_, ?_, by decide⟩
  · intro re steps max entries cur conv counts hle
    cases entries with
    | nil => rfl
    | cons e rest =>
      rw [cappedLoop, if_pos hle]
  · intro re cfg entries max cur conv counts hne hmax hcl hcur
    unfold AnalyzeFunnel
    rw [show (NewFunnelAnalyzer cfg).config = cfg from rfl]
    rw [if_neg hne, if_neg hmax, hcl]
    dsimp only
    rw [if_pos hcur]
    simp

/-- C2 witness. -/
theorem capped_mode_stops_at_limit_witness :
    cappedLoop litRe stepsEx 1 [mkMsgEntry "event1"] 0 1 [0, 0] =
      some (0, 1, [0, 0]) ∧
    (AnalyzeFunnel litRe (NewFunnelAnalyzer cfgEx)
      [mkMsgEntry "event1", mkMsgEntry "event2"] 1).map
        FunnelResult.funnelCompleted = some true ∧
    (AnalyzeFunnel litRe (NewFunnelAnalyzer cfgEx) entries4 1).map
      (fun r => (r.steps.map StepResult.eventCount, r.funnelCompleted,
        r.totalEventsAnalyzed)) = some ([1, 1], true, 4) :=
  ⟨capped_mode_stops_at_limit.1 litRe stepsEx 1 [mkMsgEntry "event1"] 0 1 [0, 0]
      (by decide),
   capped_mode_stops_at_limit.2.1 litRe cfgEx
      [mkMsgEntry "event1", mkMsgEntry "event2"] 1 2 0 [1, 1]
      (by decide) (by decide) (by decide) (by decide),
   capped_mode_stops_at_limit.2.2⟩

/-! ## Claim C4 -/

theorem compilePatterns_names (re : ReCompile) :
    ∀ (pats : List String) (ps : List EventPattern),
      compilePatterns re pats = some ps →
      ps.map EventPattern.name = pats
  | [], ps, h => by
    rw [compilePatterns] at h
    cases h
    rfl
  | p :: rest, ps, h => by
    rw [compilePatterns] at h
    rcases hre : re p with _ | m
    · rw [hre] at h
      cases h
    · rw [hre] at h
      rcases hc : compilePatterns re rest with _ | qs
      · rw [hc] at h
        cases h
      · rw [hc] at h
        cases h
        simpa using compilePatterns_names re rest qs hc

theorem countsAfterEntry_length (e : LogEntry) (pats : List EventPattern)
    (counts : List Nat) (h : counts.length = pats.length) :
    (countsAfterEntry e pats counts).length = pats.length := by
  simp [countsAfterEntry, h]

theorem countsAfterEntry_get? (e : LogEntry) (pats : List EventPattern)
    (counts : List Nat) (i : Nat) (ep : EventPattern) (c : Nat)
    (hp : pats.get? i = some ep) (hc : counts.get? i = some c) :
    (countsAfterEntry e pats counts).get? i =
      some (if eventMatchesPattern e ep then c + 1 else c) := by
  rw [countsAfterEntry, List.get?_zipWith', hp, hc]
  rfl

theorem get?_some_lt {α : Type _} {l : List α} {i : Nat} {a : α}
    (h : l.get? i = some a) : i < l.length := by
  by_contra hlt
  rw [List.get?_eq_none.mpr (Nat.not_lt.mp hlt)] at h
  cases h

theorem countLoop_countAt (pats : List EventPattern) :
    ∀ (entries : List LogEntry) (counts : List Nat),
      counts.length = pats.length →
      ∀ (i : Nat) (ep : EventPattern), pats.get? i = some ep →
        countAt (countLoop pats entries counts) i =
          countAt counts i +
            entries.countP (fun e => eventMatchesPattern e ep)
  | [], counts, hlen, i, ep, hp => by simp [countLoop]
  | e :: rest, counts, hlen, i, ep, hp => by
    have hi : i < pats.length := get?_some_lt hp
    have hci : i < counts.length := hlen ▸ hi
    obtain ⟨c, hc⟩ : ∃ c, counts.get? i = some c := by
      rcases hcc : counts.get? i with _ | c
      · rw [List.get?_eq_none] at hcc
        omega
      · exact ⟨c, rfl⟩
    rw [countLoop]
    rw [countLoop_countAt pats rest (countsAfterEntry e pats counts)
      (countsAfterEntry_length e pats counts hlen) i ep hp]
    have h2 := countsAfterEntry_get? e pats counts i ep c hp hc
    unfold countAt
    rw [h2, hc]
    simp only [Option.getD_some, List.countP_cons]
    split_ifs with hm <;> omega

theorem countLoop_length (pats : List EventPattern) :
    ∀ (entries : List LogEntry) (counts : List Nat),
      counts.length = pats.length →
      (countLoop pats entries counts).length = pats.length
  | [], counts, h => h
  | e :: rest, counts, h =>
    countLoop_length pats rest (countsAfterEntry e pats counts)
      (countsAfterEntry_length e pats counts h)

theorem zipWith_mkPC_map_pattern :
    ∀ (pats : List EventPattern) (counts : List Nat),
      counts.length = pats.length →
      (List.zipWith
        (fun (ep : EventPattern) (c : Nat) => PatternCount.mk ep.name c)
        pats counts).map PatternCount.pattern = pats.map EventPattern.name
  | [], counts, h => by
    have : counts = [] := List.length_eq_zero.mp h
    subst this
    rfl
  | p :: ps, [], h => by simp at h
  | p :: ps, c :: cs, h => by
    simpa using zipWith_mkPC_map_pattern ps cs (by simpa using h)

/-- C4 counterexample: for pattern list `["login"]` (one pattern) and the
empty entry list, `AnalyzeCount` returns zero `patternCounts` elements,
not one per input pattern. -/
theorem count_empty_entries_counterexample :
    (NewCountAnalyzer litRe ["login"]).map
      (fun ca => (AnalyzeCount ca []).patternCounts.length) = some 0 ∧
    ¬ (0 : Nat) = ["login"].length := by
  constructor
  · rfl
  · decide

/-- C4 (amended): for every pattern list accepted at count-analyzer
construction and every NON-EMPTY entry list, `patternCounts` has exactly
one element per input pattern, in the order the patterns were supplied,
each position's count computed independently from its own compiled
pattern (so duplicate pattern strings get their own counts); for the
empty entry list `patternCounts` is empty. -/
theorem count_patternCounts_order (re : ReCompile) (pats : List String)
    (ca : CountAnalyzer) (entries : List LogEntry)
    (hca : NewCountAnalyzer re pats = some ca)
    (hne : ¬ entries.length = 0) :
    (AnalyzeCount ca entries).patternCounts.map PatternCount.pattern = pats ∧
    (∀ (i : Nat) (ep : EventPattern), ca.patterns.get? i = some ep →
      ((AnalyzeCount ca entries).patternCounts.get? i).map PatternCount.count =
        some (entries.countP (fun e => eventMatchesPattern e ep))) ∧
    (AnalyzeCount ca []).patternCounts = [] := by
  obtain ⟨ps, hps, hmk⟩ := Option.map_eq_some'.mp hca
  have hcap : ca.patterns = ps := by rw [← hmk]
  have hnames : ps.map EventPattern.name = pats :=
    compilePatterns_names re pats ps hps
  have hflen : (countLoop ps entries (List.replicate ps.length 0)).length =
      ps.length :=
    countLoop_length ps entries (List.replicate ps.length 0) (by simp)
  refine ⟨?_, ?_, rfl⟩
  · unfold AnalyzeCount
    rw [if_neg hne, hcap, ← hnames]
    exact zipWith_mkPC_map_pattern ps
      (countLoop ps entries (List.replicate ps.length 0)) hflen
  · intro i ep hep
    rw [hcap] at hep
    have hi : i < ps.length := get?_some_lt hep
    obtain ⟨c, hc⟩ : ∃ c,
        (countLoop ps entries (List.replicate ps.length 0)).get? i = some c := by
      rcases hcc : (countLoop ps entries (List.replicate ps.length 0)).get? i
        with _ | c
      · rw [List.get?_eq_none] at hcc
        omega
      · exact ⟨c, rfl⟩
    have hval := countLoop_countAt ps entries (List.replicate ps.length 0)
      (by simp) i ep hep
    rw [countAt_replicate] at hval
    unfold countAt at hval
    rw [hc] at hval
    simp only [Option.getD_some, Nat.zero_add] at hval
    unfold AnalyzeCount
    rw [if_neg hne, hcap, List.get?_zipWith', hep, hc]
    simp [hval]

def caW4 : CountAnalyzer := (NewCountAnalyzer litRe ["log", "log"]).get (by decide)

/-- C4 witness (duplicate patterns, each position counted). -/
theorem count_patternCounts_order_witness :
    (AnalyzeCount caW4 [mkMsgEntry "a log line"]).patternCounts.map
      PatternCount.pattern = ["log", "log"] ∧
    ((AnalyzeCount caW4 [mkMsgEntry "a log line"]).patternCounts.get? 0).map
      PatternCount.count =
      some ([mkMsgEntry "a log line"].countP
        (fun e => eventMatchesPattern e (caW4.patterns.get ⟨0, by decide⟩))) :=
  ⟨(count_patternCounts_order litRe ["log", "log"] caW4 [mkMsgEntry "a log line"]
      rfl (by decide)).1,
   (count_patternCounts_order litRe ["log", "log"] caW4 [mkMsgEntry "a log line"]
      rfl (by decide)).2.1 0 (caW4.patterns.get ⟨0, by decide⟩)
      (List.get?_eq_get (by decide))⟩

/-! ## Claim C5 -/

def badStep : Step :=
  { name := "S", eventPattern := "(", requiredProperties := [] }

def badCfg : Config := { funnel := { name := "bad", steps := [badStep] } }

/-- C5 counterexample: with the uncompilable step pattern `"("`,
`NewFunnelAnalyzer` still produces an analyzer (the funnel constructor
cannot fail and compiles nothing), and the invalid pattern is handled at
analysis time by `eventMatchesStep` returning false — contradicting the
claim that for the funnel analyzer an invalid pattern fails construction
and is never deferred to analysis time. -/
theorem funnel_construction_never_fails_counterexample :
    litRe "(" = none ∧
    NewFunnelAnalyzer badCfg = { config := badCfg } ∧
    eventMatchesStep litRe (mkMsgEntry "anything") badStep = false :=
  ⟨rfl, rfl, rfl⟩

theorem compilePatterns_none (re : ReCompile) :
    ∀ (pats : List String) (p : String), p ∈ pats → re p = none →
      compilePatterns re pats = none
  | [], p, hmem, _ => absurd hmem (List.not_mem_nil p)
  | q :: rest, p, hmem, hre => by
    rw [compilePatterns]
    rcases List.mem_cons.mp hmem with rfl | hmem'
    · rw [hre]
    · rcases hq : re q with _ | m
      · rfl
      · rw [compilePatterns_none re rest p hmem' hre]

/-- C5 (amended): an invalid count pattern fails count-analyzer
construction with no analyzer produced; the funnel analyzer's
constructor, by contrast, cannot fail — a step whose event pattern does
not compile is instead rejected at configuration-validation time
(`validateStep` returns an error), and an uncompilable step pattern that
reaches analysis is treated there as a non-match. -/
theorem pattern_compile_failure_handling :
    (∀ (re : ReCompile) (pats : List String) (p : String),
      p ∈ pats → re p = none → NewCountAnalyzer re pats = none) ∧
    (∀ (re : ReCompile) (step : Step) (stepNames : List String),
      re step.eventPattern = none →
      exceptIsErr (validateStep re step stepNames) = true) ∧
    (∀ (re : ReCompile) (entry : LogEntry) (step : Step),
      re step.eventPattern = none →
      eventMatchesStep re entry step = false) := by
  refine ⟨?_, ?_, ?_⟩
  · intro re pats p hmem hre
    unfold NewCountAnalyzer
    rw [compilePatterns_none re pats p hmem hre]
    rfl
  · intro re step stepNames hre
    unfold validateStep
    split_ifs <;> try rfl
    rw [hre]
    rfl
  · intro re entry step hre
    unfold eventMatchesStep
    rw [hre]

/-- C5 witness (for the amended claim). -/
theorem pattern_compile_failure_handling_witness :
    NewCountAnalyzer litRe ["ok", "("] = none ∧
    exceptIsErr (validateStep litRe badStep []) = true ∧
    eventMatchesStep litRe (mkMsgEntry "x") badStep = false :=
  ⟨pattern_compile_failure_handling.1 litRe ["ok", "("] "(" (by decide) rfl,
   pattern_compile_failure_handling.2.1 litRe badStep [] rfl,
   pattern_compile_failure_handling.2.2 litRe (mkMsgEntry "x") badStep rfl⟩

/-! ## Claim C6 -/

/-- C6: over a non-empty entry list, the result's `dropOffs` list holds
exactly one record for each adjacent step pair whose earlier step count
is positive — with `eventsLost` the count difference and `dropOffRate`
the difference over the earlier count times 100, zero-loss pairs
included — and no record for a pair whose earlier count is zero. -/
theorem dropOffs_adjacent_pairs_characterization
    (re : ReCompile) (cfg : Config) (entries : List LogEntry) (max : Nat)
    (r : FunnelResult) (hne : ¬ entries.length = 0)
    (h : AnalyzeFunnel re (NewFunnelAnalyzer cfg) entries max = some r) :
    r.dropOffs = (List.range (r.steps.length - 1)).filterMap
      (fun i =>
        if 0 < resultCountAt r i then
          some
            { fromStep := resultNameAt r i
              toStep := resultNameAt r (i + 1)
              eventsLost := (resultCountAt r i : Int) - (resultCountAt r (i + 1) : Int)
              dropOffRate :=
                (((resultCountAt r i : Int) - (resultCountAt r (i + 1) : Int) : Int) : ℚ) /
                  (resultCountAt r i : ℚ) * 100 }
        else none) := by
  obtain ⟨counts, hlen, hmono, htot, hsteps, hdrops⟩ :=
    analyzeFunnel_shape re (NewFunnelAnalyzer cfg) entries max r hne h
  have hcount : ∀ i, resultCountAt r i = countAt counts i := by
    intro i
    unfold resultCountAt countAt
    rw [hsteps, mkStepResults_get?_eventCount _ counts i hlen]
  have hname : ∀ i, resultNameAt r i = stepNameAt (NewFunnelAnalyzer cfg).config.funnel.steps i := by
    intro i
    unfold resultNameAt stepNameAt
    rw [hsteps, mkStepResults_get?_name _ counts i hlen]
  have hrlen : r.steps.length = counts.length := by
    rw [hsteps, mkStepResults_length _ counts hlen]
  rw [hdrops, hrlen]
  unfold computeDropOffs
  apply List.filterMap_congr
  intro i _
  rw [hcount i, hcount (i + 1), hname i, hname (i + 1)]

def rC6 : FunnelResult :=
  (AnalyzeFunnel litRe (NewFunnelAnalyzer cfgEx)
    [mkMsgEntry "event1", mkMsgEntry "other"] 0).get (by decide)

/-- C6 witness. -/
theorem dropOffs_adjacent_pairs_characterization_witness :
    ¬ ([mkMsgEntry "event1", mkMsgEntry "other"] : List LogEntry).length = 0 ∧
    rC6.dropOffs = (List.range (rC6.steps.length - 1)).filterMap
      (fun i =>
        if 0 < resultCountAt rC6 i then
          some
            { fromStep := resultNameAt rC6 i
              toStep := resultNameAt rC6 (i + 1)
              eventsLost := (resultCountAt rC6 i : Int) - (resultCountAt rC6 (i + 1) : Int)
              dropOffRate :=
                (((resultCountAt rC6 i : Int) - (resultCountAt rC6 (i + 1) : Int) : Int) : ℚ) /
                  (resultCountAt rC6 i : ℚ) * 100 }
        else none) :=
  ⟨by decide,
   dropOffs_adjacent_pairs_characterization litRe cfgEx
     [mkMsgEntry "event1", mkMsgEntry "other"] 0 rC6 (by decide)
     (Option.some_get (by decide)).symm⟩

/-! ## Claim C7 -/

theorem exceptMap_ok {ε α β : Type _} (f : α → β) (a : α) :
    (Except.ok a : Except ε α).map f = .ok (f a) := rfl

theorem tsBlock_of_fail (timeParse : String → String → Option Nat)
    (p : PlainParser) (ms : List String)
    (hlen : 1 < ms.length) (hts : ¬ groupAt ms 1 = "")
    (hfmt : ¬ p.timestampFormat = "")
    (hfail : timeParse p.timestampFormat (groupAt ms 1) = none) :
    tsBlock timeParse p ms =
      { timestamp := none, level := "", tag := "", pid := 0, tid := 0,
        message := groupAt ms 1, eventData := none } := by
  unfold tsBlock
  rw [if_pos ⟨hlen, hts, hfmt⟩, hfail]

theorem pidBlock_msg_ts (ms : List String) (entry : LogEntry) :
    (pidBlock ms entry).message = entry.message ∧
    (pidBlock ms entry).timestamp = entry.timestamp := by
  unfold pidBlock
  split_ifs
  · constructor <;> (split <;> rfl)
  · exact ⟨rfl, rfl⟩

theorem tidBlock_msg_ts (ms : List String) (entry : LogEntry) :
    (tidBlock ms entry).message = entry.message ∧
    (tidBlock ms entry).timestamp = entry.timestamp := by
  unfold tidBlock
  split_ifs
  · constructor <;> (split <;> rfl)
  · exact ⟨rfl, rfl⟩

theorem levelBlock_msg_ts (ms : List String) (entry : LogEntry) :
    (levelBlock ms entry).message = entry.message ∧
    (levelBlock ms entry).timestamp = entry.timestamp := by
  unfold levelBlock
  split_ifs <;> exact ⟨rfl, rfl⟩

theorem tagBlock_msg_ts (ms : List String) (entry : LogEntry) :
    (tagBlock ms entry).message = entry.message ∧
    (tagBlock ms entry).timestamp = entry.timestamp := by
  unfold tagBlock
  split_ifs <;> exact ⟨rfl, rfl⟩

theorem jsonBlock_msg_ts
    (extractData : String → String → Option (List (String × JsonValue)))
    (p : PlainParser) (logLine : String) (entry : LogEntry) :
    (jsonBlock extractData p logLine entry).message = entry.message ∧
    (jsonBlock extractData p logLine entry).timestamp = entry.timestamp := by
  unfold jsonBlock
  split_ifs <;> exact ⟨rfl, rfl⟩

theorem msgBlock_of_message_ne (ms : List String) (entry : LogEntry)
    (h : ¬ entry.message = "") :
    msgBlock ms entry =
      if 6 < ms.length ∧ ¬ groupAt ms 6 = "" then
        { entry with message := groupAt ms 6 }
      else entry := by
  unfold msgBlock
  split_ifs with h6 hm
  · rfl
  · exact absurd hm.2 h
  · rfl

def pC7 : PlainParser :=
  { timestampFormat := "ts-format"
    logLineCaps := fun s => some [s, "BADTS", "", "", "", "", "hello"]
    jsonExtraction := false }

def tpC7 : String → String → Option Nat := fun _ _ => none

def exC7 : String → String → Option (List (String × JsonValue)) :=
  fun _ _ => none

/-- C7 counterexample: with a six-group line pattern whose timestamp
group `"BADTS"` fails to parse, `Parse` does not error and leaves the
timestamp unset, but the captured timestamp text is NOT the resulting
message: the non-empty message group `"hello"` overwrites the fallback,
refuting the claim that the captured timestamp text is treated as the
message. -/
theorem timestamp_fallback_overwritten_counterexample :
    (PlainParser.Parse tpC7 exC7 pC7 "some line").toOption.map
      (fun e => (e.message, e.timestamp)) = some ("hello", none) ∧
    ¬ ("hello" : String) = "BADTS" :=
  ⟨by decide, by decide⟩

/-- C7 (amended): a timestamp-parse failure (non-empty timestamp group,
configured format) never makes single-line parsing return an error and
leaves the timestamp unset; the captured timestamp text is written to
the message, and it remains the message exactly when the line pattern
captured no non-empty message group (index 6) — a non-empty message
group overwrites it. -/
theorem timestamp_parse_failure_fallback
    (timeParse : String → String → Option Nat)
    (extractData : String → String → Option (List (String × JsonValue)))
    (p : PlainParser) (logLine : String) (ms : List String)
    (hnb : ¬ String.mk (trimSpace logLine.data) = "")
    (hcaps : p.logLineCaps (String.mk (trimSpace logLine.data)) = some ms)
    (hlen : 1 < ms.length)
    (hts : ¬ groupAt ms 1 = "")
    (hfmt : ¬ p.timestampFormat = "")
    (hfail : timeParse p.timestampFormat (groupAt ms 1) = none) :
    (PlainParser.Parse timeParse extractData p logLine).map
      (fun e => (e.message, e.timestamp)) =
      .ok ((if 6 < ms.length ∧ ¬ groupAt ms 6 = "" then
              groupAt ms 6
            else groupAt ms 1), none) := by
  simp only [PlainParser.Parse, hcaps, if_neg hnb]
  set e5 := tagBlock ms (levelBlock ms (tidBlock ms
    (pidBlock ms (tsBlock timeParse p ms)))) with he5
  have h1 := tsBlock_of_fail timeParse p ms hlen hts hfmt hfail
  have hmsg : e5.message = groupAt ms 1 := by
    rw [he5, (tagBlock_msg_ts _ _).1, (levelBlock_msg_ts _ _).1,
      (tidBlock_msg_ts _ _).1, (pidBlock_msg_ts _ _).1, h1]
  have htsp : e5.timestamp = none := by
    rw [he5, (tagBlock_msg_ts _ _).2, (levelBlock_msg_ts _ _).2,
      (tidBlock_msg_ts _ _).2, (pidBlock_msg_ts _ _).2, h1]
  rw [msgBlock_of_message_ne ms e5 (by rw [hmsg]; exact hts)]
  split_ifs with h6
  · have hj := jsonBlock_msg_ts extractData p logLine
      { e5 with message := groupAt ms 6 }
    rw [exceptMap_ok, hj.1, hj.2]
    dsimp only
    rw [htsp]
  · have hj := jsonBlock_msg_ts extractData p logLine e5
    rw [exceptMap_ok, hj.1, hj.2, hmsg, htsp]

/-- C7 witness (for the amended claim). -/
theorem timestamp_parse_failure_fallback_witness :
    ¬ String.mk (trimSpace "some line".data) = "" ∧
    pC7.logLineCaps (String.mk (trimSpace "some line".data)) =
      some ["some line", "BADTS", "", "", "", "", "hello"] ∧
    (PlainParser.Parse tpC7 exC7 pC7 "some line").map
      (fun e => (e.message, e.timestamp)) =
      .ok ((if 6 < (["some line", "BADTS", "", "", "", "", "hello"] : List String).length ∧
              ¬ groupAt ["some line", "BADTS", "", "", "", "", "hello"] 6 = "" then
              groupAt ["some line", "BADTS", "", "", "", "", "hello"] 6
            else groupAt ["some line", "BADTS", "", "", "", "", "hello"] 1), none) :=
  ⟨by decide, by decide,
   timestamp_parse_failure_fallback tpC7 exC7 pC7 "some line"
     ["some line", "BADTS", "", "", "", "", "hello"]
     (by decide) (by decide) (by decide) (by decide) (by decide) rfl⟩

/-! ## Claim C10 -/

/-- C10: for every analysis (any step list, entry list and limit) that
produces a result, the step event counts are non-increasing along the
step order, so every drop-off record has `eventsLost ≥ 0` and a
`dropOffRate` between 0 and 100 inclusive. -/
theorem step_counts_monotone_dropoffs_bounded
    (re : ReCompile) (cfg : Config) (entries : List LogEntry) (max : Nat)
    (r : FunnelResult)
    (h : AnalyzeFunnel re (NewFunnelAnalyzer cfg) entries max = some r) :
    (∀ i, resultCountAt r (i + 1) ≤ resultCountAt r i) ∧
    (∀ d ∈ r.dropOffs,
      0 ≤ d.eventsLost ∧ 0 ≤ d.dropOffRate ∧ d.dropOffRate ≤ 100) := by
  by_cases hne : entries.length = 0
  · unfold AnalyzeFunnel at h
    rw [if_pos hne] at h
    cases h
    constructor
    · intro i
      simp [resultCountAt]
    · intro d hd
      simp at hd
  · obtain ⟨counts, hlen, hmono, htot, hsteps, hdrops⟩ :=
      analyzeFunnel_shape re (NewFunnelAnalyzer cfg) entries max r hne h
    have hcount : ∀ i, resultCountAt r i = countAt counts i := by
      intro i
      unfold resultCountAt countAt
      rw [hsteps, mkStepResults_get?_eventCount _ counts i hlen]
    constructor
    · intro i
      rw [hcount i, hcount (i + 1)]
      exact hmono i
    · intro d hd
      rw [hdrops] at hd
      unfold computeDropOffs at hd
      obtain ⟨i, hmem, hf⟩ := List.mem_filterMap.mp hd
      split_ifs at hf with hpos
      · cases hf
        have hle : countAt counts (i + 1) ≤ countAt counts i := hmono i
        have hz : (0 : ℚ) < (countAt counts i : ℚ) := by exact_mod_cast hpos
        have hnum : (0 : ℚ) ≤
            (((countAt counts i : Int) - (countAt counts (i + 1) : Int) : Int) : ℚ) := by
          have : (countAt counts (i + 1) : Int) ≤ (countAt counts i : Int) := by
            exact_mod_cast hle
          exact_mod_cast Int.sub_nonneg.mpr this
        have hnumle :
            (((countAt counts i : Int) - (countAt counts (i + 1) : Int) : Int) : ℚ) ≤
              (countAt counts i : ℚ) := by
          have h1 : (countAt counts i : Int) - (countAt counts (i + 1) : Int) ≤
              (countAt counts i : Int) := by omega
          exact_mod_cast h1
        refine ⟨?_, ?_, ?_⟩
        · show (0 : Int) ≤ (countAt counts i : Int) - (countAt counts (i + 1) : Int)
          have : (countAt counts (i + 1) : Int) ≤ (countAt counts i : Int) := by
            exact_mod_cast hle
          omega
        · show (0 : ℚ) ≤ _ / _ * 100
          have := div_nonneg hnum hz.le
          nlinarith
        · show _ / _ * 100 ≤ (100 : ℚ)
          have hdiv : (((countAt counts i : Int) - (countAt counts (i + 1) : Int) : Int) : ℚ) /
              (countAt counts i : ℚ) ≤ 1 := (div_le_one hz).mpr hnumle
          nlinarith

def rC10 : FunnelResult :=
  (AnalyzeFunnel litRe (NewFunnelAnalyzer cfgEx) entries4 1).get (by decide)

/-- C10 witness. -/
theorem step_counts_monotone_dropoffs_bounded_witness :
    AnalyzeFunnel litRe (NewFunnelAnalyzer cfgEx) entries4 1 = some rC10 ∧
    resultCountAt rC10 1 ≤ resultCountAt rC10 0 :=
  ⟨(Option.some_get (by decide)).symm,
   (step_counts_monotone_dropoffs_bounded litRe cfgEx entries4 1 rC10
      (Option.some_get (by decide)).symm).1 0⟩

end Loglion
